import Mathlib

/-!
# Verification of the holarchic physics simulation core

Shallow embedding of `src/lib/physics/hamiltonian.ts` and
`src/lib/physics/holarchic-memory.ts`. JavaScript numbers are modelled as
real numbers; 3-component arrays as a `Vec3` structure; particle and memory
node records as Lean structures; the wall-clock/random identifier generator
for synthesized particles and memory nodes as a monotone counter threaded
through the pass (ids only matter through equality tests). Loops become
structural recursion or folds in the same iteration order as the source.
-/

noncomputable section

/-- A 3-component vector, the `[number, number, number]` tuples of the source. -/
@[ext]
structure Vec3 where
  x : ℝ
  y : ℝ
  z : ℝ

instance : Inhabited Vec3 := ⟨⟨0, 0, 0⟩⟩

def vec3Zero : Vec3 := ⟨0, 0, 0⟩

/-- `vec3Add` of the source. -/
def vec3Add (a b : Vec3) : Vec3 := ⟨a.x + b.x, a.y + b.y, a.z + b.z⟩

/-- `vec3Sub` of the source. -/
def vec3Sub (a b : Vec3) : Vec3 := ⟨a.x - b.x, a.y - b.y, a.z - b.z⟩

/-- `vec3Scale` of the source. -/
def vec3Scale (v : Vec3) (s : ℝ) : Vec3 := ⟨v.x * s, v.y * s, v.z * s⟩

/-- `vec3Dot` of the source. -/
def vec3Dot (a b : Vec3) : ℝ := a.x * b.x + a.y * b.y + a.z * b.z

/-- `vec3Length` of the source (`Math.sqrt` becomes `Real.sqrt`). -/
def vec3Length (v : Vec3) : ℝ := Real.sqrt (v.x * v.x + v.y * v.y + v.z * v.z)

/-- `vec3Normalize` of the source: zero-length vectors normalize to zero. -/
def vec3Normalize (v : Vec3) : Vec3 :=
  if vec3Length v = 0 then vec3Zero else vec3Scale v (1 / vec3Length v)

/-- Componentwise negation (used only to state antisymmetry). -/
def vec3Neg (v : Vec3) : Vec3 := ⟨-v.x, -v.y, -v.z⟩

/-- The `Particle` interface of `src/lib/store.ts`. -/
@[ext]
structure Particle where
  id : String
  position : Vec3
  momentum : Vec3
  mass : ℝ
  charge : ℝ
  holarchyLevel : ℤ
  energy : ℝ
  color : String

instance : Inhabited Particle :=
  ⟨⟨"", vec3Zero, vec3Zero, 0, 0, 0, 0, ""⟩⟩

/-- The `PhysicsConfig` interface of `hamiltonian.ts`. -/
structure PhysicsConfig where
  springConstant : ℝ
  dampingFactor : ℝ
  gravitationalConstant : ℝ
  couplingStrength : ℝ
  timeScale : ℝ

/-- The `EnergyResult` interface of `hamiltonian.ts`. -/
structure EnergyResult where
  kinetic : ℝ
  potential : ℝ
  total : ℝ

/-- The gesture mode tag of `hamiltonian.ts`. -/
inductive GestureMode where
  | attract
  | repel
  | spawn
  | destroy
deriving DecidableEq

/-- One iteration of the particle-particle loop in `calculateForce`
(`hamiltonian.ts` lines 85-110): the gravitational plus charge-coupling
contribution of `other` to the force on `particle`, zero when the pair is
skipped (same id, or separation below the 0.1 singularity guard). The two
`vec3Add`s of the source accumulate this same sum into the running force. -/
def interactionTerm (config : PhysicsConfig) (particle other : Particle) : Vec3 :=
  if other.id = particle.id then vec3Zero
  else
    let diff := vec3Sub other.position particle.position
    let distance := vec3Length diff
    if distance < 0.1 then vec3Zero
    else
      let direction := vec3Normalize diff
      let gravMagnitude :=
        config.gravitationalConstant * particle.mass * other.mass / (distance * distance)
      let gravForce := vec3Scale direction gravMagnitude
      let levelDiff := |particle.holarchyLevel - other.holarchyLevel|
      let holarchicMod : ℝ := if levelDiff = 0 then 1.0 else 0.5 / (1 + (levelDiff : ℝ))
      let chargeMagnitude :=
        config.couplingStrength * particle.charge * other.charge / (distance * distance)
      let chargeForce := vec3Scale direction (-chargeMagnitude * holarchicMod)
      vec3Add gravForce chargeForce

/-- The hand-interaction block of `calculateForce` (`hamiltonian.ts`
lines 112-127), as the vector it adds to the accumulated force. -/
def handTerm (particle : Particle) (handPosition : Option Vec3)
    (gestureMode : GestureMode) : Vec3 :=
  match handPosition with
  | none => vec3Zero
  | some hp =>
    let toHand := vec3Sub hp particle.position
    let handDist := vec3Length toHand
    if 0.1 < handDist ∧ handDist < 10 then
      let handDir := vec3Normalize toHand
      let handStrength := 5 / (handDist * handDist)
      if gestureMode = GestureMode.attract then vec3Scale handDir handStrength
      else if gestureMode = GestureMode.repel then vec3Scale handDir (-handStrength)
      else vec3Zero
    else vec3Zero

/-- `calculateForce` of `hamiltonian.ts`: spring to origin, damping, the
particle-particle loop (a left fold in array order), then the hand term. -/
def calculateForce (particle : Particle) (allParticles : List Particle)
    (config : PhysicsConfig) (handPosition : Option Vec3)
    (gestureMode : GestureMode) : Vec3 :=
  let toOrigin := vec3Scale particle.position (-config.springConstant)
  let velocity := vec3Scale particle.momentum (1 / particle.mass)
  let damping := vec3Scale velocity (-config.dampingFactor)
  let base := vec3Add (vec3Add vec3Zero toOrigin) damping
  let withPairs :=
    allParticles.foldl (fun f other => vec3Add f (interactionTerm config particle other)) base
  vec3Add withPairs (handTerm particle handPosition gestureMode)

/-- `calculateKineticEnergy` of `hamiltonian.ts`. -/
def calculateKineticEnergy (particles : List Particle) : ℝ :=
  particles.foldl (fun sum p => sum + vec3Dot p.momentum p.momentum / (2 * p.mass)) 0

/-- One pair's contribution to the pairwise loop of `calculatePotentialEnergy`
(`hamiltonian.ts` lines 154-173): gravitational plus level-modulated Coulomb
potential, zero when the separation is below the 0.1 guard. -/
def pairPotential (config : PhysicsConfig) (pi pj : Particle) : ℝ :=
  let diff := vec3Sub pj.position pi.position
  let distance := vec3Length diff
  if distance < 0.1 then 0
  else
    let levelDiff := |pi.holarchyLevel - pj.holarchyLevel|
    let holarchicMod : ℝ := if levelDiff = 0 then 1.0 else 0.5 / (1 + (levelDiff : ℝ))
    let total := -(config.gravitationalConstant * pi.mass * pj.mass) / distance
      + config.couplingStrength * pi.charge * pj.charge * holarchicMod / distance
    total

/-- The `i < j` double loop of `calculatePotentialEnergy`, in source order. -/
def pairwisePotential (config : PhysicsConfig) : List Particle → ℝ
  | [] => 0
  | p :: rest =>
    rest.foldl (fun sum q => sum + pairPotential config p q) 0 + pairwisePotential config rest

/-- `calculatePotentialEnergy` of `hamiltonian.ts`: spring potential to the
origin plus the pairwise interaction potential. -/
def calculatePotentialEnergy (particles : List Particle) (config : PhysicsConfig) : ℝ :=
  particles.foldl (fun potential p =>
    potential + 0.5 * config.springConstant * vec3Dot p.position p.position) 0
    + pairwisePotential config particles

/-- The position half-step of `integrateHamiltonian` (`hamiltonian.ts`
lines 200-215), for one particle and its force. -/
def updatePosition (timeStep : ℝ) (p : Particle) (force : Vec3) : Particle :=
  let velocity := vec3Scale p.momentum (1 / p.mass)
  let acceleration := vec3Scale force (1 / p.mass)
  { p with
    position :=
      ⟨p.position.x + velocity.x * timeStep + 0.5 * acceleration.x * timeStep * timeStep,
       p.position.y + velocity.y * timeStep + 0.5 * acceleration.y * timeStep * timeStep,
       p.position.z + velocity.z * timeStep + 0.5 * acceleration.z * timeStep * timeStep⟩ }

/-- The momentum half-step of `integrateHamiltonian` (`hamiltonian.ts`
lines 221-243), for one particle and its old and new forces; also stores the
particle's instantaneous kinetic energy. -/
def updateMomentum (timeStep : ℝ) (p : Particle) (oldForce newForce : Vec3) : Particle :=
  let avgForce : Vec3 :=
    ⟨0.5 * (oldForce.x + newForce.x),
     0.5 * (oldForce.y + newForce.y),
     0.5 * (oldForce.z + newForce.z)⟩
  let newMomentum : Vec3 :=
    ⟨p.momentum.x + avgForce.x * timeStep,
     p.momentum.y + avgForce.y * timeStep,
     p.momentum.z + avgForce.z * timeStep⟩
  let kineticEnergy := vec3Dot newMomentum newMomentum / (2 * p.mass)
  { p with momentum := newMomentum, energy := kineticEnergy }

/-- The `forces` array of `integrateHamiltonian`: forces at current positions. -/
def initialForces (particles : List Particle) (config : PhysicsConfig)
    (handPosition : Option Vec3) (gestureMode : GestureMode) : List Vec3 :=
  particles.map (fun p => calculateForce p particles config handPosition gestureMode)

/-- The `updatedParticles` array of `integrateHamiltonian`: positions advanced
with the forces at the old positions (the source's map indexed into the
parallel `forces` array, hence the `zipWith`). -/
def positionPass (particles : List Particle) (config : PhysicsConfig) (dt : ℝ)
    (handPosition : Option Vec3) (gestureMode : GestureMode) : List Particle :=
  List.zipWith (updatePosition (dt * config.timeScale)) particles
    (initialForces particles config handPosition gestureMode)

/-- The `newForces` array of `integrateHamiltonian`: forces recomputed at the
updated positions (momenta at this stage are still the old ones). -/
def updatedForces (particles : List Particle) (config : PhysicsConfig) (dt : ℝ)
    (handPosition : Option Vec3) (gestureMode : GestureMode) : List Vec3 :=
  (positionPass particles config dt handPosition gestureMode).map
    (fun p => calculateForce p (positionPass particles config dt handPosition gestureMode)
      config handPosition gestureMode)

/-- The result record of `integrateHamiltonian`. -/
structure IntegrationResult where
  particles : List Particle
  energies : EnergyResult

/-- `integrateHamiltonian` of `hamiltonian.ts`: velocity-Verlet step with
`timeStep = dt * timeScale`, then the system energy triple. -/
def integrateHamiltonian (particles : List Particle) (config : PhysicsConfig)
    (dt : ℝ) (handPosition : Option Vec3) (gestureMode : GestureMode) :
    IntegrationResult :=
  let updatedParticles := positionPass particles config dt handPosition gestureMode
  let finalParticles :=
    List.zipWith (fun p (fs : Vec3 × Vec3) => updateMomentum (dt * config.timeScale) p fs.1 fs.2)
      updatedParticles
      (List.zip (initialForces particles config handPosition gestureMode)
        (updatedForces particles config dt handPosition gestureMode))
  let kinetic := calculateKineticEnergy finalParticles
  let potential := calculatePotentialEnergy finalParticles config
  { particles := finalParticles
    energies := { kinetic := kinetic, potential := potential, total := kinetic + potential } }

/-- The level palette pushed with a synthesized particle (`hamiltonian.ts`
lines 308-310). -/
def HOLARCHY_COLORS : List String :=
  ["#6366f1", "#22d3ee", "#10b981", "#fbbf24", "#f472b6"]

/-- The particle `checkHolarchicEmergence` pushes for a merging pair
(`hamiltonian.ts` lines 296-321). The source's wall-clock/random id is
modelled by the merge counter `k`. -/
def synthesize (k : ℕ) (pi pj : Particle) : Particle :=
  let newMass := pi.mass + pj.mass
  { id := "p_" ++ toString k
    position :=
      ⟨(pi.position.x * pi.mass + pj.position.x * pj.mass) / newMass,
       (pi.position.y * pi.mass + pj.position.y * pj.mass) / newMass,
       (pi.position.z * pi.mass + pj.position.z * pj.mass) / newMass⟩
    momentum :=
      ⟨pi.momentum.x + pj.momentum.x,
       pi.momentum.y + pj.momentum.y,
       pi.momentum.z + pj.momentum.z⟩
    mass := newMass
    charge := pi.charge + pj.charge
    holarchyLevel := pi.holarchyLevel + 1
    energy := 0
    color := HOLARCHY_COLORS.getD ((pi.holarchyLevel + 1) % 5).toNat "" }

/-- State threaded through the merge pass: the `toMerge` id set (as a list,
queried by membership), the particles pushed onto `result`, and the counter
standing in for the source's random id generator. -/
structure EmergeState where
  toMerge : List String
  newParticles : List Particle
  counter : ℕ

/-- The merge test of the inner loop of `checkHolarchicEmergence`
(`hamiltonian.ts` lines 280-291): same level, below the level cap, separation
below the threshold, and relative momentum per combined mass below the same
threshold. -/
def mergeCond (emergenceThreshold : ℝ) (maxLevel : ℤ) (pi pj : Particle) : Prop :=
  pi.holarchyLevel = pj.holarchyLevel ∧
    pi.holarchyLevel < maxLevel - 1 ∧
    vec3Length (vec3Sub pj.position pi.position) < emergenceThreshold ∧
    vec3Length (vec3Sub pj.momentum pi.momentum) / (pi.mass + pj.mass) < emergenceThreshold

instance (t : ℝ) (m : ℤ) (pi pj : Particle) : Decidable (mergeCond t m pi pj) := by
  unfold mergeCond; infer_instance

/-- The inner `j` loop of `checkHolarchicEmergence`: `rest` are the particles
after index `i` in the original array; a particle already in `toMerge` is
skipped, a passing pair marks both ids and pushes the synthesized particle.
The source does not break out of this loop after a match. -/
def innerLoop (emergenceThreshold : ℝ) (maxLevel : ℤ) (pi : Particle) :
    List Particle → EmergeState → EmergeState
  | [], st => st
  | pj :: rest, st =>
    if pj.id ∈ st.toMerge then innerLoop emergenceThreshold maxLevel pi rest st
    else if mergeCond emergenceThreshold maxLevel pi pj then
      innerLoop emergenceThreshold maxLevel pi rest
        { toMerge := st.toMerge ++ [pi.id, pj.id]
          newParticles := st.newParticles ++ [synthesize st.counter pi pj]
          counter := st.counter + 1 }
    else innerLoop emergenceThreshold maxLevel pi rest st

/-- The outer `i` loop of `checkHolarchicEmergence`: a particle already in
`toMerge` at the start of its iteration is skipped, otherwise the inner loop
runs over the particles after it. -/
def outerLoop (emergenceThreshold : ℝ) (maxLevel : ℤ) :
    List Particle → EmergeState → EmergeState
  | [], st => st
  | pi :: rest, st =>
    if pi.id ∈ st.toMerge then outerLoop emergenceThreshold maxLevel rest st
    else outerLoop emergenceThreshold maxLevel rest
      (innerLoop emergenceThreshold maxLevel pi rest st)

/-- The final state of the merge pass over `particles`. -/
def emergePass (particles : List Particle) (emergenceThreshold : ℝ)
    (maxLevel : ℤ) : EmergeState :=
  outerLoop emergenceThreshold maxLevel particles ⟨[], [], 0⟩

/-- `checkHolarchicEmergence` of `hamiltonian.ts`: the original particles with
all synthesized particles appended, then filtered against the `toMerge` set. -/
def checkHolarchicEmergence (particles : List Particle) (emergenceThreshold : ℝ)
    (maxLevel : ℤ) : List Particle :=
  let st := emergePass particles emergenceThreshold maxLevel
  (particles ++ st.newParticles).filter (fun p => p.id ∉ st.toMerge)

/-- The `HolarchicMemoryNode` interface of `src/lib/store.ts`. -/
@[ext]
structure HolarchicMemoryNode where
  id : String
  level : ℤ
  position : Vec3
  children : List String
  parent : Option String
  activationEnergy : ℝ
  memoryStrength : ℝ

instance : Inhabited HolarchicMemoryNode :=
  ⟨⟨"", 0, vec3Zero, [], none, 0, 0⟩⟩

/-- The `MemoryConfig` interface of `holarchic-memory.ts`. -/
structure MemoryConfig where
  decayRate : ℝ
  synchronizationStrength : ℝ
  activationThreshold : ℝ

/-- The `reduce` over masses repeated throughout `holarchic-memory.ts`. -/
def massSum (particles : List Particle) : ℝ :=
  particles.foldl (fun sum p => sum + p.mass) 0

/-- The `reduce` over energies repeated throughout `holarchic-memory.ts`. -/
def energySum (particles : List Particle) : ℝ :=
  particles.foldl (fun sum p => sum + p.energy) 0

/-- The mass-weighted centroid computation repeated in
`createMemoryNodeFromParticles`, `updateMemoryNodes` and `recognizePattern`. -/
def centroidOf (particles : List Particle) : Vec3 :=
  let totalMass := massSum particles
  ⟨particles.foldl (fun sum p => sum + p.position.x * p.mass) 0 / totalMass,
   particles.foldl (fun sum p => sum + p.position.y * p.mass) 0 / totalMass,
   particles.foldl (fun sum p => sum + p.position.z * p.mass) 0 / totalMass⟩

/-- The Euclidean distance computed componentwise (`dx`, `dy`, `dz`, then
`Math.sqrt`) at several places of `holarchic-memory.ts`. -/
def distBetween (a b : Vec3) : ℝ :=
  Real.sqrt ((a.x - b.x) * (a.x - b.x) + (a.y - b.y) * (a.y - b.y) + (a.z - b.z) * (a.z - b.z))

/-- `createMemoryNodeFromParticles` of `holarchic-memory.ts`; the
wall-clock/random `generateNodeId` is modelled by the caller-supplied id. -/
def createMemoryNodeFromParticles (nid : String) (particles : List Particle)
    (level : ℤ) (parentId : Option String) : HolarchicMemoryNode :=
  { id := nid
    level := level
    position := centroidOf particles
    children := particles.map (fun p => p.id)
    parent := parentId
    activationEnergy := energySum particles
    memoryStrength := 1.0 }

/-- The key set of the insertion-ordered `levelGroups` map of
`buildHolarchicTree`: the distinct holarchy levels in order of first
occurrence. -/
def levelsInOrder (particles : List Particle) : List ℤ :=
  particles.foldl
    (fun acc p => if p.holarchyLevel ∈ acc then acc else acc ++ [p.holarchyLevel]) []

/-- The nodes `buildHolarchicTree` creates before sorting and linking: one per
populated level, in map-iteration (first-occurrence) order; the `k`-th created
node gets the modelled id `mem_k`. -/
def buildNodesUnsorted (particles : List Particle) : List HolarchicMemoryNode :=
  (levelsInOrder particles).enum.map (fun lk =>
    createMemoryNodeFromParticles ("mem_" ++ toString lk.1)
      (particles.filter (fun p => p.holarchyLevel = lk.2)) lk.2 none)

/-- The descending scan of the linking loop of `buildHolarchicTree`
(`holarchic-memory.ts` lines 98-104): starting at index `j` and walking down
to 0, the first index whose node has level strictly below `lvl`. -/
def scanDown (nodes : List HolarchicMemoryNode) (lvl : ℤ) : ℕ → Option ℕ
  | 0 => if (nodes.getD 0 default).level < lvl then some 0 else none
  | j + 1 =>
    if (nodes.getD (j + 1) default).level < lvl then some (j + 1)
    else scanDown nodes lvl j

/-- One iteration of the linking loop of `buildHolarchicTree`: node `i` gets
the found lower-level node as parent, and that parent's children list gets
node `i`'s id appended. -/
def linkAt (nodes : List HolarchicMemoryNode) (i : ℕ) : List HolarchicMemoryNode :=
  let cur := nodes.getD i default
  match scanDown nodes cur.level (i - 1) with
  | none => nodes
  | some j =>
    let pj := nodes.getD j default
    (nodes.set i { cur with parent := some pj.id }).set j
      { pj with children := pj.children ++ [cur.id] }

/-- `buildHolarchicTree` of `holarchic-memory.ts`: group by level, create one
node per non-empty level, sort ascending by level, then run the linking loop
for indices 1 to n-1. -/
def buildHolarchicTree (particles : List Particle) (maxDepth : ℤ) :
    List HolarchicMemoryNode :=
  let nodes := List.insertionSort
    (fun a b => a.level ≤ b.level) (buildNodesUnsorted particles)
  (List.range' 1 (nodes.length - 1)).foldl linkAt nodes

/-- The matching-particle filter of `updateMemoryNodes` (`holarchic-memory.ts`
lines 125-127): a particle matches a node when its id is among the node's
children or its holarchy level equals the node's level. -/
def matchingParticles (node : HolarchicMemoryNode) (particles : List Particle) :
    List Particle :=
  particles.filter (fun p => p.id ∈ node.children ∨ p.holarchyLevel = node.level)

/-- The body of the `map` in `updateMemoryNodes`: decay, then reinforcement,
positional adaptation and activation update when matching particles exist. -/
def updateNode (particles : List Particle) (config : MemoryConfig)
    (deltaTime : ℝ) (node : HolarchicMemoryNode) : HolarchicMemoryNode :=
  let newStrength := node.memoryStrength * (1 - config.decayRate * deltaTime)
  let matching := matchingParticles node particles
  if matching.length > 0 then
    let currentCentroid := centroidOf matching
    let distance := distBetween currentCentroid node.position
    let similarity := Real.exp (-distance)
    let reinforced := min 1.0 (newStrength + similarity * 0.1)
    let learningRate : ℝ := 0.01
    let newPosition : Vec3 :=
      ⟨node.position.x + (currentCentroid.x - node.position.x) * learningRate,
       node.position.y + (currentCentroid.y - node.position.y) * learningRate,
       node.position.z + (currentCentroid.z - node.position.z) * learningRate⟩
    let newActivation := energySum matching
    { node with
      position := newPosition
      memoryStrength := reinforced
      activationEnergy := newActivation }
  else
    { node with memoryStrength := newStrength }

/-- `updateMemoryNodes` of `holarchic-memory.ts`: map the per-node update over
the list, then drop nodes whose strength has faded to 0.01 or below. -/
def updateMemoryNodes (nodes : List HolarchicMemoryNode)
    (particles : List Particle) (config : MemoryConfig) (deltaTime : ℝ) :
    List HolarchicMemoryNode :=
  (nodes.map (updateNode particles config deltaTime)).filter
    (fun node => node.memoryStrength > 0.01)

/-- The fold of the node loop of `recognizePattern` (`holarchic-memory.ts`
lines 252-267): track the best match and best similarity, starting from
`(null, -1)`; nodes at other levels are skipped. -/
def recognizeStep (currentCentroid : Vec3) (level : ℤ)
    (best : Option HolarchicMemoryNode × ℝ) (node : HolarchicMemoryNode) :
    Option HolarchicMemoryNode × ℝ :=
  if node.level ≠ level then best
  else
    let similarity := node.memoryStrength * Real.exp (-(distBetween currentCentroid node.position))
    if best.2 < similarity then (some node, similarity) else best

/-- `recognizePattern` of `holarchic-memory.ts`: null when no particles live
at the level; otherwise the best node at the level, or null when the best
similarity is not above 0.1. -/
def recognizePattern (particles : List Particle)
    (nodes : List HolarchicMemoryNode) (level : ℤ) :
    Option HolarchicMemoryNode :=
  let levelParticles := particles.filter (fun p => p.holarchyLevel = level)
  if levelParticles.length = 0 then none
  else
    let currentCentroid := centroidOf levelParticles
    let best := nodes.foldl (recognizeStep currentCentroid level) (none, -1)
    if best.2 > 0.1 then best.1 else none

/-- `calculateHolarchicCoherence` of `holarchic-memory.ts`: 0 on an empty
particle or node list; otherwise the average of
`exp(-distance) * memoryStrength` over every (node, same-level particle)
pair, with the running total and count threaded through nested loops. -/
def calculateHolarchicCoherence (particles : List Particle)
    (nodes : List HolarchicMemoryNode) : ℝ :=
  if particles.length = 0 ∨ nodes.length = 0 then 0
  else
    let acc := nodes.foldl (fun (a : ℝ × ℕ) node =>
      (particles.filter (fun p => p.holarchyLevel = node.level)).foldl
        (fun (b : ℝ × ℕ) particle =>
          (b.1 + Real.exp (-(distBetween particle.position node.position)) * node.memoryStrength,
           b.2 + 1)) a) ((0 : ℝ), (0 : ℕ))
    if acc.2 > 0 then acc.1 / (acc.2 : ℝ) else 0

/-! ## Vector arithmetic helpers -/

lemma vec3Add_zero_right (v : Vec3) : vec3Add v vec3Zero = v := by
  ext <;> simp [vec3Add, vec3Zero]

lemma vec3Length_sub_comm (a b : Vec3) :
    vec3Length (vec3Sub a b) = vec3Length (vec3Sub b a) := by
  unfold vec3Length vec3Sub
  congr 1
  ring

lemma vec3Length_sub_self (v : Vec3) : vec3Length (vec3Sub v v) = 0 := by
  simp [vec3Length, vec3Sub]

lemma vec3Length_neg (v : Vec3) : vec3Length (vec3Neg v) = vec3Length v := by
  unfold vec3Length vec3Neg
  congr 1
  ring

lemma vec3Neg_zero : vec3Neg vec3Zero = vec3Zero := by
  ext <;> simp [vec3Neg, vec3Zero]

lemma vec3Sub_swap (a b : Vec3) : vec3Sub a b = vec3Neg (vec3Sub b a) := by
  ext <;> simp [vec3Sub, vec3Neg]

lemma vec3Normalize_neg (v : Vec3) :
    vec3Normalize (vec3Neg v) = vec3Neg (vec3Normalize v) := by
  unfold vec3Normalize
  rw [vec3Length_neg]
  split_ifs with h
  · exact vec3Neg_zero.symm
  · ext <;> simp [vec3Scale, vec3Neg]

/-! ## C4: the 0.1 singularity guard silently zeroes pairwise contributions -/

lemma interactionTerm_eq_zero (config : PhysicsConfig) (p q : Particle)
    (h : vec3Length (vec3Sub q.position p.position) < 0.1) :
    interactionTerm config p q = vec3Zero := by
  simp only [interactionTerm]
  split_ifs <;> rfl

lemma pairPotential_eq_zero (config : PhysicsConfig) (p q : Particle)
    (h : vec3Length (vec3Sub q.position p.position) < 0.1) :
    pairPotential config p q = 0 := by
  simp only [pairPotential]
  split_ifs <;> rfl

lemma foldl_vec3Add_zero (t : Particle → Vec3) (l : List Particle) (b : Vec3)
    (h : ∀ o ∈ l, t o = vec3Zero) :
    l.foldl (fun f o => vec3Add f (t o)) b = b := by
  induction l generalizing b with
  | nil => rfl
  | cons a rest ih =>
    rw [List.foldl_cons, h a (by simp), vec3Add_zero_right]
    exact ih b fun o ho => h o (List.mem_cons_of_mem a ho)

/-- C4. Any pair of particles closer than 0.1 (identical positions included)
contributes exactly zero to the pairwise force and to the pairwise potential;
with every other particle that close (and no hand attractor), `calculateForce`
reduces to the per-particle spring and damping terms alone. All embedded
operations are total real-valued functions, so no NaN, infinity or exception
can arise. -/
theorem singularity_guard_zero_contribution (config : PhysicsConfig)
    (p q : Particle) (ps : List Particle) (gm : GestureMode)
    (h : vec3Length (vec3Sub q.position p.position) < 0.1)
    (hall : ∀ r ∈ ps, vec3Length (vec3Sub r.position p.position) < 0.1) :
    interactionTerm config p q = vec3Zero ∧
    pairPotential config p q = 0 ∧
    calculateForce p ps config none gm =
      vec3Add (vec3Add vec3Zero (vec3Scale p.position (-config.springConstant)))
        (vec3Scale (vec3Scale p.momentum (1 / p.mass)) (-config.dampingFactor)) := by
  refine ⟨interactionTerm_eq_zero config p q h, pairPotential_eq_zero config p q h, ?_⟩
  simp only [calculateForce]
  rw [foldl_vec3Add_zero (interactionTerm config p) ps _
    (fun o ho => interactionTerm_eq_zero config p o (hall o ho))]
  rw [show handTerm p none gm = vec3Zero from rfl, vec3Add_zero_right]

/-- Witness for C4: two particles at the same point. -/
def wA : Particle := ⟨"wa", ⟨0, 0, 0⟩, ⟨0, 0, 0⟩, 1, 0, 0, 0, ""⟩

/-- Witness for C4: second particle, same position as `wA`. -/
def wB : Particle := ⟨"wb", ⟨0, 0, 0⟩, ⟨1, 0, 0⟩, 2, 1, 0, 0, ""⟩

/-- A configuration with every coefficient 1, for concrete witnesses. -/
def cfg1 : PhysicsConfig := ⟨1, 1, 1, 1, 1⟩

theorem singularity_guard_zero_contribution_witness :
    interactionTerm cfg1 wA wB = vec3Zero ∧
    pairPotential cfg1 wA wB = 0 ∧
    calculateForce wA [wB] cfg1 none GestureMode.attract =
      vec3Add (vec3Add vec3Zero (vec3Scale wA.position (-cfg1.springConstant)))
        (vec3Scale (vec3Scale wA.momentum (1 / wA.mass)) (-cfg1.dampingFactor)) := by
  have hd : vec3Length (vec3Sub wB.position wA.position) < 0.1 := by
    rw [show wB.position = wA.position from rfl, vec3Length_sub_self]
    norm_num
  exact singularity_guard_zero_contribution cfg1 wA wB [wB] GestureMode.attract hd
    (fun r hr => by rw [List.mem_singleton.mp hr]; exact hd)

/-! ## C5: antisymmetry of the pairwise gravity and charge-coupling terms -/

/-- The generic (non-skipped) branch of the pairwise interaction term. -/
lemma interactionTerm_of_far (config : PhysicsConfig) (p q : Particle)
    (hid : ¬(q.id = p.id))
    (hd : ¬(vec3Length (vec3Sub q.position p.position) < 0.1)) :
    interactionTerm config p q =
      vec3Add
        (vec3Scale (vec3Normalize (vec3Sub q.position p.position))
          (config.gravitationalConstant * p.mass * q.mass /
            (vec3Length (vec3Sub q.position p.position) *
              vec3Length (vec3Sub q.position p.position))))
        (vec3Scale (vec3Normalize (vec3Sub q.position p.position))
          (-(config.couplingStrength * p.charge * q.charge /
              (vec3Length (vec3Sub q.position p.position) *
                vec3Length (vec3Sub q.position p.position))) *
            (if |p.holarchyLevel - q.holarchyLevel| = 0 then 1.0
             else 0.5 / (1 + ((|p.holarchyLevel - q.holarchyLevel| : ℤ) : ℝ))))) := by
  simp only [interactionTerm]
  rw [if_neg hid, if_neg hd]

/-- C5. For two particles with positive masses and separation at least 0.1,
the gravitational plus charge-coupling contribution `calculateForce`
accumulates on one from the other is the exact negation of the reverse
contribution (spring and damping are per-particle and excluded). -/
theorem pairwise_force_antisymmetry (config : PhysicsConfig) (p q : Particle)
    (hmp : 0 < p.mass) (hmq : 0 < q.mass)
    (hd : 0.1 ≤ vec3Length (vec3Sub q.position p.position)) :
    interactionTerm config p q = vec3Neg (interactionTerm config q p) := by
  by_cases hid : q.id = p.id
  · simp only [interactionTerm]
    rw [if_pos hid, if_pos hid.symm, vec3Neg_zero]
  · have hid' : ¬(p.id = q.id) := fun hpq => hid hpq.symm
    have hd1 : ¬(vec3Length (vec3Sub q.position p.position) < 0.1) := not_lt.mpr hd
    have hd2 : ¬(vec3Length (vec3Sub p.position q.position) < 0.1) := by
      rw [vec3Length_sub_comm]; exact hd1
    rw [interactionTerm_of_far config p q hid hd1,
      interactionTerm_of_far config q p hid' hd2,
      vec3Length_sub_comm p.position q.position,
      vec3Sub_swap p.position q.position, vec3Normalize_neg,
      abs_sub_comm q.holarchyLevel p.holarchyLevel]
    set d := vec3Length (vec3Sub q.position p.position) with hdef
    set n := vec3Normalize (vec3Sub q.position p.position) with hndef
    set m : ℝ :=
      if |p.holarchyLevel - q.holarchyLevel| = 0 then 1.0
      else 0.5 / (1 + ((|p.holarchyLevel - q.holarchyLevel| : ℤ) : ℝ)) with hmdef
    ext <;> simp only [vec3Add, vec3Scale, vec3Neg] <;> ring

/-- Witness particles for C5, separated by distance 1. -/
def wC : Particle := ⟨"wc", ⟨1, 0, 0⟩, ⟨0, 0, 0⟩, 3, -1, 1, 0, ""⟩

theorem pairwise_force_antisymmetry_witness :
    interactionTerm cfg1 wA wC = vec3Neg (interactionTerm cfg1 wC wA) := by
  refine pairwise_force_antisymmetry cfg1 wA wC (by norm_num [wA]) (by norm_num [wC]) ?_
  have : vec3Length (vec3Sub wC.position wA.position) = 1 := by
    show Real.sqrt _ = 1
    norm_num [wC, wA, vec3Sub]
  rw [this]
  norm_num

/-! ## C10: a zero effective time step only rewrites the energy field -/

lemma updatePosition_zero (p : Particle) (f : Vec3) : updatePosition 0 p f = p := by
  simp only [updatePosition, vec3Scale]
  ext <;> simp

lemma updateMomentum_zero (p : Particle) (a b : Vec3) :
    updateMomentum 0 p a b =
      { p with energy := vec3Dot p.momentum p.momentum / (2 * p.mass) } := by
  simp only [updateMomentum, vec3Dot]
  ext <;> simp

lemma zipWith_map_left {α β γ : Type} (f : α → β → γ) (g : α → γ)
    (hf : ∀ a b, f a b = g a) :
    ∀ (as : List α) (bs : List β), as.length ≤ bs.length →
      List.zipWith f as bs = as.map g := by
  intro as
  induction as with
  | nil => intro bs _; rfl
  | cons a rest ih =>
    intro bs hb
    cases bs with
    | nil => simp at hb
    | cons b bt =>
      simp only [List.zipWith_cons_cons, List.map_cons, hf]
      rw [ih bt (by simpa using hb)]

lemma zipWith_left_id {α β : Type} (f : α → β → α) (hf : ∀ a b, f a b = a)
    (as : List α) (bs : List β) (h : as.length ≤ bs.length) :
    List.zipWith f as bs = as := by
  rw [zipWith_map_left f id hf as bs h, List.map_id]

/-- C10. When `dt * timeScale = 0`, `integrateHamiltonian` returns every
particle with position and momentum (and all other fields) unchanged except
`energy`, which is overwritten with the instantaneous kinetic energy
`|p|^2 / (2m)`. -/
theorem zero_step_only_energy (ps : List Particle) (config : PhysicsConfig)
    (dt : ℝ) (hp : Option Vec3) (gm : GestureMode)
    (h : dt * config.timeScale = 0) :
    (integrateHamiltonian ps config dt hp gm).particles =
      ps.map (fun p => { p with
        energy := vec3Dot p.momentum p.momentum / (2 * p.mass) }) := by
  have hF : (initialForces ps config hp gm).length = ps.length := by
    simp [initialForces]
  have hpos : positionPass ps config dt hp gm = ps := by
    simp only [positionPass, h]
    exact zipWith_left_id _ (fun p v => updatePosition_zero p v) ps _ (le_of_eq hF.symm)
  have hF2 : (updatedForces ps config dt hp gm).length = ps.length := by
    simp [updatedForces, hpos]
  simp only [integrateHamiltonian, h, hpos]
  exact zipWith_map_left
    (fun (p : Particle) (fs : Vec3 × Vec3) => updateMomentum 0 p fs.1 fs.2)
    (fun p => { p with energy := vec3Dot p.momentum p.momentum / (2 * p.mass) })
    (fun p fs => updateMomentum_zero p fs.1 fs.2) ps _
    (by simp [List.length_zip, hF, hF2])

/-- Witness config for C10: `timeScale = 0`. -/
def cfg0 : PhysicsConfig := ⟨1, 1, 1, 1, 0⟩

theorem zero_step_only_energy_witness :
    (integrateHamiltonian [wA, wC] cfg0 1 none GestureMode.attract).particles =
      [wA, wC].map (fun p => { p with
        energy := vec3Dot p.momentum p.momentum / (2 * p.mass) }) :=
  zero_step_only_energy [wA, wC] cfg0 1 none GestureMode.attract (by norm_num [cfg0])

/-! ## C3: the integrator is exactly the velocity-Verlet scheme -/

/-- The spec formula `q(t+dt) = q(t) + (p(t)/m)*dt + 0.5*(F(t)/m)*dt^2`,
written with the vector operations (a refinement-side definition, compared
against the embedded code). -/
def specVerletPosition (p : Particle) (force : Vec3) (dt : ℝ) : Vec3 :=
  vec3Add (vec3Add p.position (vec3Scale (vec3Scale p.momentum (1 / p.mass)) dt))
    (vec3Scale (vec3Scale force (1 / p.mass)) (0.5 * dt ^ 2))

/-- The spec formula `p(t+dt) = p(t) + 0.5*(F(t) + F(t+dt))*dt` (a
refinement-side definition, compared against the embedded code). -/
def specVerletMomentum (p : Particle) (oldForce newForce : Vec3) (dt : ℝ) : Vec3 :=
  vec3Add p.momentum (vec3Scale (vec3Scale (vec3Add oldForce newForce) 0.5) dt)

/-- C3. Every particle is advanced by exactly the velocity-Verlet scheme with
step `dt * timeScale`: the new position is `q + (p/m)*dt + 0.5*(F(t)/m)*dt^2`
with `F(t)` the forces at the old positions (`initialForces`), and the new
momentum is `p + 0.5*(F(t) + F(t+dt))*dt` with `F(t+dt)` the forces recomputed
at the updated positions (`updatedForces`). -/
theorem integrator_is_velocity_verlet (ps : List Particle) (config : PhysicsConfig)
    (dt : ℝ) (hp : Option Vec3) (gm : GestureMode) (i : ℕ) (hi : i < ps.length) :
    ((integrateHamiltonian ps config dt hp gm).particles.getD i default).position =
      specVerletPosition (ps.getD i default)
        ((initialForces ps config hp gm).getD i default) (dt * config.timeScale) ∧
    ((integrateHamiltonian ps config dt hp gm).particles.getD i default).momentum =
      specVerletMomentum (ps.getD i default)
        ((initialForces ps config hp gm).getD i default)
        ((updatedForces ps config dt hp gm).getD i default) (dt * config.timeScale) := by
  have hF : (initialForces ps config hp gm).length = ps.length := by
    simp [initialForces]
  have hU : (positionPass ps config dt hp gm).length = ps.length := by
    simp [positionPass, hF, List.length_zipWith]
  have hF2 : (updatedForces ps config dt hp gm).length = ps.length := by
    simp [updatedForces, hU]
  have hfin : (integrateHamiltonian ps config dt hp gm).particles.length = ps.length := by
    simp [integrateHamiltonian, List.length_zipWith, List.length_zip, hU, hF, hF2]
  rw [List.getD_eq_getElem _ _ (hfin ▸ hi), List.getD_eq_getElem _ _ hi,
    List.getD_eq_getElem _ _ (hF ▸ hi), List.getD_eq_getElem _ _ (hF2 ▸ hi)]
  simp only [integrateHamiltonian, positionPass, List.getElem_zipWith, List.getElem_zip]
  constructor
  · simp only [updateMomentum, updatePosition, specVerletPosition, vec3Scale, vec3Add]
    ext <;> ring
  · simp only [updateMomentum, updatePosition, specVerletMomentum, vec3Scale, vec3Add]
    ext <;> ring

theorem integrator_is_velocity_verlet_witness :
    ((integrateHamiltonian [wA, wC] cfg1 1 none GestureMode.attract).particles.getD
        0 default).position =
      specVerletPosition ([wA, wC].getD 0 default)
        ((initialForces [wA, wC] cfg1 none GestureMode.attract).getD 0 default)
        (1 * cfg1.timeScale) ∧
    ((integrateHamiltonian [wA, wC] cfg1 1 none GestureMode.attract).particles.getD
        0 default).momentum =
      specVerletMomentum ([wA, wC].getD 0 default)
        ((initialForces [wA, wC] cfg1 none GestureMode.attract).getD 0 default)
        ((updatedForces [wA, wC] cfg1 1 none GestureMode.attract).getD 0 default)
        (1 * cfg1.timeScale) :=
  integrator_is_velocity_verlet [wA, wC] cfg1 1 none GestureMode.attract 0 (by norm_num)

/-! ## C6: a node with no matching particles only decays, pruned at 0.01 -/

/-- C6. For a node none of whose matching-particle conditions hold, the update
changes only `memoryStrength`, multiplying it by `(1 - decayRate*dt)` (a
strict decrease whenever the old strength and `decayRate*dt` are positive),
and the updated node survives into the output exactly when the decayed
strength exceeds the 0.01 pruning threshold. -/
theorem unmatched_node_only_decays (nodes : List HolarchicMemoryNode)
    (particles : List Particle) (config : MemoryConfig) (dt : ℝ)
    (node : HolarchicMemoryNode) (hmem : node ∈ nodes)
    (hnomatch : ∀ p ∈ particles,
      ¬(p.id ∈ node.children ∨ p.holarchyLevel = node.level)) :
    updateNode particles config dt node =
      { node with memoryStrength := node.memoryStrength * (1 - config.decayRate * dt) } ∧
    (0 < node.memoryStrength → 0 < config.decayRate * dt →
      node.memoryStrength * (1 - config.decayRate * dt) < node.memoryStrength) ∧
    (updateNode particles config dt node ∈ updateMemoryNodes nodes particles config dt ↔
      0.01 < node.memoryStrength * (1 - config.decayRate * dt)) := by
  have hempty : matchingParticles node particles = [] := by
    simp only [matchingParticles]
    rw [List.filter_eq_nil_iff]
    intro a ha
    simpa using hnomatch a ha
  have hupd : updateNode particles config dt node =
      { node with memoryStrength := node.memoryStrength * (1 - config.decayRate * dt) } := by
    simp [updateNode, hempty]
  refine ⟨hupd, fun hs hr => by nlinarith [mul_pos hs hr], ?_⟩
  constructor
  · intro hin
    have h2 := (List.mem_filter.mp hin).2
    rw [hupd] at h2
    simpa using h2
  · intro hgt
    refine List.mem_filter.mpr ⟨List.mem_map_of_mem _ hmem, ?_⟩
    rw [hupd]
    simpa using hgt

/-- Witness node for C6: no children, level 0, full strength. -/
def mNode : HolarchicMemoryNode := ⟨"m1", 0, ⟨0, 0, 0⟩, [], none, 0, 1⟩

/-- Witness memory config for C6: decay rate 1/2. -/
def mCfg : MemoryConfig := ⟨0.5, 1, 1⟩

theorem unmatched_node_only_decays_witness :
    (updateNode [wC] mCfg 1 mNode =
      { mNode with memoryStrength := mNode.memoryStrength * (1 - mCfg.decayRate * 1) } ∧
    (0 < mNode.memoryStrength → 0 < mCfg.decayRate * 1 →
      mNode.memoryStrength * (1 - mCfg.decayRate * 1) < mNode.memoryStrength) ∧
    (updateNode [wC] mCfg 1 mNode ∈ updateMemoryNodes [mNode] [wC] mCfg 1 ↔
      0.01 < mNode.memoryStrength * (1 - mCfg.decayRate * 1))) ∧
    (0.01 : ℝ) < mNode.memoryStrength * (1 - mCfg.decayRate * 1) :=
  ⟨unmatched_node_only_decays [mNode] [wC] mCfg 1 mNode (List.mem_singleton.mpr rfl)
      (fun p hp => by rw [List.mem_singleton.mp hp]; simp [wC, mNode]),
   by norm_num [mNode, mCfg]⟩

/-! ## C9: matching is the union of child membership and level equality -/

/-- Demo node for C9: its children list is empty, so any matching comes from
level equality alone. -/
def demoNode : HolarchicMemoryNode := ⟨"dm", 0, ⟨0, 0, 0⟩, [], none, 0, 0.5⟩

/-- Demo particle for C9: at `demoNode`'s level but not among its children. -/
def demoQ : Particle := ⟨"dq", ⟨1, 0, 0⟩, ⟨0, 0, 0⟩, 1, 0, 0, 5, ""⟩

/-- Demo memory config for C9: zero decay isolates the reinforcement path. -/
def demoMemCfg : MemoryConfig := ⟨0, 0, 0⟩

/-- C9. A particle at a node's level is a matching particle even when it is
not among the node's children (the filter is a union), and such a particle
drives the centroid adaptation, the reinforcement and the activation-energy
update: the child-less `demoNode` moves 1% toward `demoQ`, is reinforced by
`exp(-1) * 0.1`, and takes over `demoQ`'s energy. -/
theorem matching_is_union (node : HolarchicMemoryNode) (particles : List Particle)
    (p : Particle) (hp : p ∈ particles) (hlvl : p.holarchyLevel = node.level) :
    p ∈ matchingParticles node particles ∧
    demoQ.id ∉ demoNode.children ∧
    demoQ.holarchyLevel = demoNode.level ∧
    updateMemoryNodes [demoNode] [demoQ] demoMemCfg 1 =
      [{ demoNode with
          position := ⟨0.01, 0, 0⟩
          memoryStrength := 0.5 + Real.exp (-1) * 0.1
          activationEnergy := 5 }] := by
  refine ⟨List.mem_filter.mpr ⟨hp, by simp [hlvl]⟩, by simp [demoQ, demoNode], rfl, ?_⟩
  have hmatch : matchingParticles demoNode [demoQ] = [demoQ] := by
    simp [matchingParticles, demoNode, demoQ]
  have hcent : centroidOf [demoQ] = ⟨1, 0, 0⟩ := by
    ext <;> norm_num [centroidOf, massSum, demoQ]
  have hexp : Real.exp (-1) < 1 := Real.exp_lt_one_iff.mpr (by norm_num)
  have hepos : (0 : ℝ) < Real.exp (-1) := Real.exp_pos _
  have hu : updateNode [demoQ] demoMemCfg 1 demoNode =
      { demoNode with
          position := ⟨0.01, 0, 0⟩
          memoryStrength := 0.5 + Real.exp (-1) * 0.1
          activationEnergy := 5 } := by
    simp only [updateNode, hmatch, hcent]
    have hdist : distBetween ⟨1, 0, 0⟩ demoNode.position = 1 := by
      show Real.sqrt _ = 1
      norm_num [demoNode]
    rw [hdist]
    have hmin : min (1.0 : ℝ)
        (demoNode.memoryStrength * (1 - demoMemCfg.decayRate * 1) + Real.exp (-1) * 0.1) =
        0.5 + Real.exp (-1) * 0.1 := by
      rw [min_eq_right (by norm_num [demoNode, demoMemCfg]; nlinarith)]
      norm_num [demoNode, demoMemCfg]
    rw [if_pos (by norm_num : [demoQ].length > 0), hmin]
    ext <;> simp [demoNode, demoMemCfg, energySum, demoQ]
  have hkeep : (0.01 : ℝ) < 0.5 + Real.exp (-1) * 0.1 := by nlinarith
  simp only [updateMemoryNodes, List.map_cons, List.map_nil, hu]
  rw [List.filter_cons_of_pos (by simpa using hkeep), List.filter_nil]

theorem matching_is_union_witness :
    demoQ ∈ matchingParticles demoNode [demoQ] ∧
    demoQ.id ∉ demoNode.children ∧
    demoQ.holarchyLevel = demoNode.level ∧
    updateMemoryNodes [demoNode] [demoQ] demoMemCfg 1 =
      [{ demoNode with
          position := ⟨0.01, 0, 0⟩
          memoryStrength := 0.5 + Real.exp (-1) * 0.1
          activationEnergy := 5 }] :=
  matching_is_union demoNode [demoQ] demoQ (List.mem_singleton.mpr rfl) rfl

/-! ## C2: per-merge conservation and the end-to-end merge scenario -/

/-- Scenario particle: mass 1 at the origin, level 0, at rest. -/
def sA : Particle := ⟨"a", ⟨0, 0, 0⟩, ⟨0, 0, 0⟩, 1, 0, 0, 0, ""⟩

/-- Scenario particle: mass 1 at (0.05, 0, 0), level 0, at rest. -/
def sB : Particle := ⟨"b", ⟨0.05, 0, 0⟩, ⟨0, 0, 0⟩, 1, 0, 0, 0, ""⟩

lemma sAB_mergeCond : mergeCond 0.7 5 sA sB := by
  refine ⟨rfl, by norm_num [sA], ?_, ?_⟩
  · simp only [sA, sB, vec3Sub, vec3Length]
    rw [Real.sqrt_lt' (by norm_num)]
    norm_num
  · simp only [sA, sB, vec3Sub, vec3Length]
    norm_num [Real.sqrt_zero]

lemma sAB_pass : emergePass [sA, sB] 0.7 5 =
    ⟨["a", "b"], [synthesize 0 sA sB], 1⟩ := by
  have hb : sB.id ∈ [sA.id, sB.id] := by simp
  unfold emergePass
  simp only [outerLoop, innerLoop, sAB_mergeCond, if_true, hb,
    List.not_mem_nil, if_false, ite_false, ite_true]
  rfl

/-- C2. A synthesized particle carries the exact mass sum, momentum vector
sum, charge sum, mass-weighted average position, incremented level and zero
energy of its pair; every particle marked for merge is absent from the pass
output; and the spec's end-to-end scenario (two unit masses at distance 0.05,
threshold 0.7) produces exactly one level-1 particle at (0.025, 0, 0) with
mass 2 and zero momentum. -/
theorem merge_conservation (k : ℕ) (pi pj : Particle) (ps : List Particle)
    (t : ℝ) (m : ℤ) (p : Particle)
    (hm : p.id ∈ (emergePass ps t m).toMerge) :
    (synthesize k pi pj).mass = pi.mass + pj.mass ∧
    (synthesize k pi pj).momentum = vec3Add pi.momentum pj.momentum ∧
    (synthesize k pi pj).charge = pi.charge + pj.charge ∧
    (synthesize k pi pj).position = vec3Scale
      (vec3Add (vec3Scale pi.position pi.mass) (vec3Scale pj.position pj.mass))
      (1 / (pi.mass + pj.mass)) ∧
    (synthesize k pi pj).holarchyLevel = pi.holarchyLevel + 1 ∧
    (synthesize k pi pj).energy = 0 ∧
    p ∉ checkHolarchicEmergence ps t m ∧
    checkHolarchicEmergence [sA, sB] 0.7 5 = [synthesize 0 sA sB] ∧
    (synthesize 0 sA sB).position = ⟨0.025, 0, 0⟩ ∧
    (synthesize 0 sA sB).mass = 2 ∧
    (synthesize 0 sA sB).momentum = ⟨0, 0, 0⟩ ∧
    (synthesize 0 sA sB).holarchyLevel = 1 := by
  refine ⟨rfl, rfl, rfl, ?_, rfl, rfl, ?_, ?_, ?_, ?_, ?_, rfl⟩
  · ext <;> simp only [synthesize, vec3Add, vec3Scale] <;> ring
  · intro hin
    exact absurd hm (by simpa using (List.mem_filter.mp hin).2)
  · unfold checkHolarchicEmergence
    rw [sAB_pass]
    have h1 : ¬(sA.id ∉ ["a", "b"]) := by simp [sA]
    have h2 : ¬(sB.id ∉ ["a", "b"]) := by simp [sB]
    have h3 : (synthesize 0 sA sB).id ∉ ["a", "b"] := by
      rw [show (synthesize 0 sA sB).id = "p_0" from rfl]
      simp
    simp only [List.cons_append, List.nil_append]
    rw [List.filter_cons_of_neg (by simpa using h1),
      List.filter_cons_of_neg (by simpa using h2),
      List.filter_cons_of_pos (by simpa using h3), List.filter_nil]
  · ext <;> norm_num [synthesize, sA, sB]
  · norm_num [synthesize, sA, sB]
  · ext <;> norm_num [synthesize, sA, sB]

theorem merge_conservation_witness :
    (synthesize 3 sA sB).mass = sA.mass + sB.mass ∧
    (synthesize 3 sA sB).momentum = vec3Add sA.momentum sB.momentum ∧
    (synthesize 3 sA sB).charge = sA.charge + sB.charge ∧
    (synthesize 3 sA sB).position = vec3Scale
      (vec3Add (vec3Scale sA.position sA.mass) (vec3Scale sB.position sB.mass))
      (1 / (sA.mass + sB.mass)) ∧
    (synthesize 3 sA sB).holarchyLevel = sA.holarchyLevel + 1 ∧
    (synthesize 3 sA sB).energy = 0 ∧
    sA ∉ checkHolarchicEmergence [sA, sB] 0.7 5 ∧
    checkHolarchicEmergence [sA, sB] 0.7 5 = [synthesize 0 sA sB] ∧
    (synthesize 0 sA sB).position = ⟨0.025, 0, 0⟩ ∧
    (synthesize 0 sA sB).mass = 2 ∧
    (synthesize 0 sA sB).momentum = ⟨0, 0, 0⟩ ∧
    (synthesize 0 sA sB).holarchyLevel = 1 :=
  merge_conservation 3 sA sB [sA, sB] 0.7 5 sA (by rw [sAB_pass]; simp [sA])

/-! ## C1: a marked particle keeps pairing in the same pass (missing break) -/

/-- C1 failing input: three identical particles at the origin. -/
def tA : Particle := ⟨"ta", ⟨0, 0, 0⟩, ⟨0, 0, 0⟩, 1, 0, 0, 0, ""⟩

/-- C1 failing input, second particle. -/
def tB : Particle := ⟨"tb", ⟨0, 0, 0⟩, ⟨0, 0, 0⟩, 1, 0, 0, 0, ""⟩

/-- C1 failing input, third particle. -/
def tC : Particle := ⟨"tc", ⟨0, 0, 0⟩, ⟨0, 0, 0⟩, 1, 0, 0, 0, ""⟩

lemma coincident_mergeCond (p q : Particle)
    (hpos : q.position = p.position) (hmom : q.momentum = p.momentum)
    (hlvl : p.holarchyLevel = q.holarchyLevel) (hlvl0 : p.holarchyLevel < 4) :
    mergeCond 0.7 5 p q := by
  refine ⟨hlvl, by omega, ?_, ?_⟩
  · rw [hpos, vec3Length_sub_self]
    norm_num
  · rw [hmom, vec3Length_sub_self]
    rcases le_or_lt 0 (p.mass + q.mass) with h | h
    · rcases eq_or_lt_of_le h with h0 | h0
      · rw [← h0]
        norm_num
      · rw [zero_div]
        norm_num
    · rw [zero_div]
      norm_num

lemma tABC_pass : emergePass [tA, tB, tC] 0.7 5 =
    ⟨["ta", "tb", "ta", "tc"], [synthesize 0 tA tB, synthesize 1 tA tC], 2⟩ := by
  have hab : mergeCond 0.7 5 tA tB := coincident_mergeCond tA tB rfl rfl rfl (by norm_num [tA])
  have hac : mergeCond 0.7 5 tA tC := coincident_mergeCond tA tC rfl rfl rfl (by norm_num [tA])
  have hc : tC.id ∉ (["ta", "tb"] : List String) := by simp [tC]
  have hb : tB.id ∈ (["ta", "tb", "ta", "tc"] : List String) := by simp [tB]
  have hc2 : tC.id ∈ (["ta", "tb", "ta", "tc"] : List String) := by simp [tC]
  unfold emergePass
  simp only [outerLoop, innerLoop, hab, hac, hb, hc2, if_true,
    List.not_mem_nil, if_false, ite_false, ite_true]
  rfl

/-- C1 fails on the code: `checkHolarchicEmergence` has no `break` after a
successful merge, so the outer particle `tA`, although already marked for
merge with `tB`, keeps pairing and also merges with `tC` in the same pass.
The pass output contains two synthesized particles, each of mass 2, both
built from `tA`; total mass grows from 3 to 4. -/
theorem marked_particle_merges_again :
    checkHolarchicEmergence [tA, tB, tC] 0.7 5 =
      [synthesize 0 tA tB, synthesize 1 tA tC] ∧
    (synthesize 0 tA tB).mass = 2 ∧
    (synthesize 1 tA tC).mass = 2 ∧
    massSum [tA, tB, tC] = 3 ∧
    massSum (checkHolarchicEmergence [tA, tB, tC] 0.7 5) = 4 := by
  have hout : checkHolarchicEmergence [tA, tB, tC] 0.7 5 =
      [synthesize 0 tA tB, synthesize 1 tA tC] := by
    unfold checkHolarchicEmergence
    rw [tABC_pass]
    have h1 : ¬(tA.id ∉ ["ta", "tb", "ta", "tc"]) := by simp [tA]
    have h2 : ¬(tB.id ∉ ["ta", "tb", "ta", "tc"]) := by simp [tB]
    have h3 : ¬(tC.id ∉ ["ta", "tb", "ta", "tc"]) := by simp [tC]
    have h4 : (synthesize 0 tA tB).id ∉ ["ta", "tb", "ta", "tc"] := by
      rw [show (synthesize 0 tA tB).id = "p_0" from rfl]
      simp
    have h5 : (synthesize 1 tA tC).id ∉ ["ta", "tb", "ta", "tc"] := by
      rw [show (synthesize 1 tA tC).id = "p_1" from rfl]
      simp
    simp only [List.cons_append, List.nil_append]
    rw [List.filter_cons_of_neg (by simpa using h1),
      List.filter_cons_of_neg (by simpa using h2),
      List.filter_cons_of_neg (by simpa using h3),
      List.filter_cons_of_pos (by simpa using h4),
      List.filter_cons_of_pos (by simpa using h5), List.filter_nil]
  refine ⟨hout, by norm_num [synthesize, tA, tB], by norm_num [synthesize, tA, tC],
    by norm_num [massSum, tA, tB, tC], ?_⟩
  rw [hout]
  norm_num [massSum, synthesize, tA, tB, tC]

/-! ## C8: neutral results on degenerate queries -/

lemma recognizeStep_skip (c : Vec3) (lvl : ℤ) (b : Option HolarchicMemoryNode × ℝ)
    (a : HolarchicMemoryNode) (h : ¬(a.level = lvl)) :
    recognizeStep c lvl b a = b := by
  simp [recognizeStep, h]

lemma recognizeStep_update (c : Vec3) (lvl : ℤ) (b : Option HolarchicMemoryNode × ℝ)
    (a : HolarchicMemoryNode) (h : a.level = lvl)
    (hlt : b.2 < a.memoryStrength * Real.exp (-(distBetween c a.position))) :
    recognizeStep c lvl b a =
      (some a, a.memoryStrength * Real.exp (-(distBetween c a.position))) := by
  simp [recognizeStep, h, hlt]

lemma recognizeStep_keep (c : Vec3) (lvl : ℤ) (b : Option HolarchicMemoryNode × ℝ)
    (a : HolarchicMemoryNode) (h : a.level = lvl)
    (hlt : ¬(b.2 < a.memoryStrength * Real.exp (-(distBetween c a.position)))) :
    recognizeStep c lvl b a = b := by
  simp [recognizeStep, h, hlt]

lemma recognize_foldl_le_iff (c : Vec3) (lvl : ℤ) (l : List HolarchicMemoryNode)
    (b : Option HolarchicMemoryNode × ℝ) (x : ℝ) :
    (l.foldl (recognizeStep c lvl) b).2 ≤ x ↔
      (b.2 ≤ x ∧ ∀ n ∈ l, n.level = lvl →
        n.memoryStrength * Real.exp (-(distBetween c n.position)) ≤ x) := by
  induction l generalizing b with
  | nil => simp
  | cons a rest ih =>
    rw [List.foldl_cons, ih]
    by_cases hl : a.level = lvl
    · by_cases hlt : b.2 < a.memoryStrength * Real.exp (-(distBetween c a.position))
      · rw [recognizeStep_update c lvl b a hl hlt]
        constructor
        · rintro ⟨hsim, hrest⟩
          exact ⟨le_of_lt (lt_of_lt_of_le hlt hsim),
            fun n hn hnl => by
              rcases List.mem_cons.mp hn with h | h
              · rw [h]; exact hsim
              · exact hrest n h hnl⟩
        · rintro ⟨hb, hall⟩
          exact ⟨hall a (List.mem_cons_self a rest) hl,
            fun n hn hnl => hall n (List.mem_cons_of_mem a hn) hnl⟩
      · rw [recognizeStep_keep c lvl b a hl hlt]
        constructor
        · rintro ⟨hb, hrest⟩
          exact ⟨hb, fun n hn hnl => by
            rcases List.mem_cons.mp hn with h | h
            · rw [h]; exact le_trans (not_lt.mp hlt) hb
            · exact hrest n h hnl⟩
        · rintro ⟨hb, hall⟩
          exact ⟨hb, fun n hn hnl => hall n (List.mem_cons_of_mem a hn) hnl⟩
    · rw [recognizeStep_skip c lvl b a hl]
      constructor
      · rintro ⟨hb, hrest⟩
        exact ⟨hb, fun n hn hnl => by
          rcases List.mem_cons.mp hn with h | h
          · exact absurd (h ▸ hnl) hl
          · exact hrest n h hnl⟩
      · rintro ⟨hb, hall⟩
        exact ⟨hb, fun n hn hnl => hall n (List.mem_cons_of_mem a hn) hnl⟩

lemma recognize_foldl_isSome (c : Vec3) (lvl : ℤ) (l : List HolarchicMemoryNode)
    (b : Option HolarchicMemoryNode × ℝ) (hb : 0.1 < b.2 → b.1.isSome) :
    0.1 < (l.foldl (recognizeStep c lvl) b).2 →
      (l.foldl (recognizeStep c lvl) b).1.isSome := by
  induction l generalizing b with
  | nil => exact hb
  | cons a rest ih =>
    rw [List.foldl_cons]
    apply ih
    by_cases hl : a.level = lvl
    · by_cases hlt : b.2 < a.memoryStrength * Real.exp (-(distBetween c a.position))
      · rw [recognizeStep_update c lvl b a hl hlt]
        intro
        simp
      · rw [recognizeStep_keep c lvl b a hl hlt]
        exact hb
    · rw [recognizeStep_skip c lvl b a hl]
      exact hb

/-- C8. The coherence metric returns exactly 0 on an empty particle list or an
empty node list, and the recognizer returns `none` exactly when no particle
lives at the queried level or every node at that level scores
`memoryStrength * exp(-distance to the level centroid)` at most 0.1 (so in
particular the best such score is at most 0.1). Both queries are total. -/
theorem degenerate_queries_neutral (ps : List Particle)
    (ns : List HolarchicMemoryNode) (lvl : ℤ) :
    calculateHolarchicCoherence [] ns = 0 ∧
    calculateHolarchicCoherence ps [] = 0 ∧
    (recognizePattern ps ns lvl = none ↔
      ps.filter (fun p => p.holarchyLevel = lvl) = [] ∨
      ∀ n ∈ ns, n.level = lvl →
        n.memoryStrength * Real.exp (-(distBetween
          (centroidOf (ps.filter (fun p => p.holarchyLevel = lvl)))
          n.position)) ≤ 0.1) := by
  refine ⟨by simp [calculateHolarchicCoherence], by simp [calculateHolarchicCoherence], ?_⟩
  by_cases hlp : (ps.filter (fun p => p.holarchyLevel = lvl)).length = 0
  · have hnone : recognizePattern ps ns lvl = none := by
      simp [recognizePattern, hlp]
    exact iff_of_true hnone (Or.inl (List.length_eq_zero.mp hlp))
  · have heq : recognizePattern ps ns lvl =
        if (ns.foldl (recognizeStep
            (centroidOf (ps.filter (fun p => p.holarchyLevel = lvl))) lvl)
            (none, -1)).2 > 0.1 then
          (ns.foldl (recognizeStep
            (centroidOf (ps.filter (fun p => p.holarchyLevel = lvl))) lvl)
            (none, -1)).1
        else none := by
      simp [recognizePattern, hlp]
    rcases le_or_lt (ns.foldl (recognizeStep
        (centroidOf (ps.filter (fun p => p.holarchyLevel = lvl))) lvl)
        (none, -1)).2 0.1 with hle | hgt
    · rw [heq, if_neg (not_lt.mpr hle)]
      have hall := (recognize_foldl_le_iff _ lvl ns (none, -1) 0.1).mp hle
      exact iff_of_true rfl (Or.inr hall.2)
    · rw [heq, if_pos hgt]
      have hsome := recognize_foldl_isSome _ lvl ns (none, -1)
        (fun h => by norm_num at h) hgt
      constructor
      · intro hnone
        rw [hnone] at hsome
        simp at hsome
      · rintro (h | hall)
        · exact absurd (h ▸ List.length_nil) hlp
        · exact absurd ((recognize_foldl_le_iff _ lvl ns (none, -1) 0.1).mpr
            ⟨by norm_num, hall⟩) (not_le.mpr hgt)

/-! ## C7: tree construction -- one node per level, forest shape -/

lemma getD_set_self_of_lt {α : Type} [Inhabited α] (l : List α) (i : ℕ) (a : α)
    (h : i < l.length) : (l.set i a).getD i default = a := by
  rw [List.getD_eq_getElem _ _ (by simpa using h)]
  exact List.getElem_set_self _

lemma getD_set_ne_of_ne {α : Type} [Inhabited α] (l : List α) (i k : ℕ) (a : α)
    (h : i ≠ k) : (l.set i a).getD k default = l.getD k default := by
  by_cases hk : k < l.length
  · rw [List.getD_eq_getElem _ _ (by simpa using hk), List.getD_eq_getElem _ _ hk]
    exact List.getElem_set_ne h _
  · rw [List.getD_eq_default _ _ (by simpa using le_of_not_lt hk),
      List.getD_eq_default _ _ (le_of_not_lt hk)]

lemma levelsInOrder_aux_mem (ps : List Particle) :
    ∀ (acc : List ℤ) (x : ℤ),
      (x ∈ ps.foldl
        (fun acc p => if p.holarchyLevel ∈ acc then acc else acc ++ [p.holarchyLevel])
        acc) ↔
      x ∈ acc ∨ ∃ p ∈ ps, p.holarchyLevel = x := by
  induction ps with
  | nil => intro acc x; simp
  | cons p rest ih =>
    intro acc x
    rw [List.foldl_cons]
    by_cases hin : p.holarchyLevel ∈ acc
    · rw [if_pos hin, ih]
      have habs : p.holarchyLevel = x → x ∈ acc := fun h => h ▸ hin
      constructor
      · rintro (h | ⟨q, hq, hqx⟩)
        · exact Or.inl h
        · exact Or.inr ⟨q, List.mem_cons_of_mem p hq, hqx⟩
      · rintro (h | ⟨q, hq, hqx⟩)
        · exact Or.inl h
        · rcases List.mem_cons.mp hq with h1 | h1
          · exact Or.inl (habs (h1 ▸ hqx))
          · exact Or.inr ⟨q, h1, hqx⟩
    · rw [if_neg hin, ih]
      constructor
      · rintro (hm | ⟨q, hq, hqx⟩)
        · rcases List.mem_append.mp hm with h | h
          · exact Or.inl h
          · exact Or.inr ⟨p, List.mem_cons_self p rest, (List.mem_singleton.mp h).symm⟩
        · exact Or.inr ⟨q, List.mem_cons_of_mem p hq, hqx⟩
      · rintro (hm | ⟨q, hq, hqx⟩)
        · exact Or.inl (List.mem_append.mpr (Or.inl hm))
        · rcases List.mem_cons.mp hq with h1 | h1
          · exact Or.inl (List.mem_append.mpr (Or.inr
              (List.mem_singleton.mpr (h1 ▸ hqx).symm)))
          · exact Or.inr ⟨q, h1, hqx⟩

lemma mem_levelsInOrder (ps : List Particle) (x : ℤ) :
    x ∈ levelsInOrder ps ↔ ∃ p ∈ ps, p.holarchyLevel = x := by
  rw [levelsInOrder, levelsInOrder_aux_mem]
  simp

lemma levelsInOrder_aux_nodup (ps : List Particle) :
    ∀ acc : List ℤ, acc.Nodup →
      (ps.foldl
        (fun acc p => if p.holarchyLevel ∈ acc then acc else acc ++ [p.holarchyLevel])
        acc).Nodup := by
  induction ps with
  | nil => intro acc h; simpa using h
  | cons p rest ih =>
    intro acc h
    rw [List.foldl_cons]
    by_cases hin : p.holarchyLevel ∈ acc
    · rw [if_pos hin]; exact ih acc h
    · rw [if_neg hin]
      refine ih _ (List.nodup_append.mpr ⟨h, by simp, ?_⟩)
      intro x hx hx1
      rw [List.mem_singleton.mp hx1] at hx
      exact hin hx

lemma levelsInOrder_nodup (ps : List Particle) : (levelsInOrder ps).Nodup :=
  levelsInOrder_aux_nodup ps [] (by simp)

lemma buildNodesUnsorted_levels (ps : List Particle) :
    (buildNodesUnsorted ps).map (fun n => n.level) = levelsInOrder ps := by
  unfold buildNodesUnsorted
  rw [List.map_map]
  have : ((fun n : HolarchicMemoryNode => n.level) ∘ fun lk : ℕ × ℤ =>
      createMemoryNodeFromParticles ("mem_" ++ toString lk.1)
        (ps.filter (fun p => p.holarchyLevel = lk.2)) lk.2 none) = Prod.snd := by
    funext lk
    rfl
  rw [this]
  exact List.enum_map_snd _

lemma buildNodesUnsorted_parent (ps : List Particle) :
    ∀ n ∈ buildNodesUnsorted ps, n.parent = none := by
  intro n hn
  rcases List.mem_map.mp hn with ⟨lk, _, rfl⟩
  rfl

lemma scanDown_spec (ns : List HolarchicMemoryNode) (lvl : ℤ) :
    ∀ j k, scanDown ns lvl j = some k →
      k ≤ j ∧ (ns.getD k default).level < lvl := by
  intro j
  induction j with
  | zero =>
    intro k h
    rw [scanDown] at h
    split_ifs at h with hc
    cases h
    exact ⟨le_refl 0, hc⟩
  | succ j ih =>
    intro k h
    rw [scanDown] at h
    split_ifs at h with hc
    · cases h; exact ⟨le_refl _, hc⟩
    · rcases ih k h with ⟨h1, h2⟩
      exact ⟨le_trans h1 (Nat.le_succ j), h2⟩

/-- The forest shape of a node list: every parent pointer names a node of the
list at a strictly lower level whose children list holds the referrer's id. -/
def ForestInv (ns : List HolarchicMemoryNode) : Prop :=
  ∀ k, k < ns.length → ∀ pid, (ns.getD k default).parent = some pid →
    ∃ j, j < ns.length ∧ (ns.getD j default).id = pid ∧
      (ns.getD j default).level < (ns.getD k default).level ∧
      (ns.getD k default).id ∈ (ns.getD j default).children

lemma linkAt_length (ns : List HolarchicMemoryNode) (i : ℕ) :
    (linkAt ns i).length = ns.length := by
  simp only [linkAt]
  cases hsc : scanDown ns (ns.getD i default).level (i - 1) with
  | none => simp
  | some j => simp [List.length_set]

lemma linkAt_id_level (ns : List HolarchicMemoryNode) (i k : ℕ) :
    ((linkAt ns i).getD k default).id = (ns.getD k default).id ∧
    ((linkAt ns i).getD k default).level = (ns.getD k default).level := by
  simp only [linkAt]
  cases hsc : scanDown ns (ns.getD i default).level (i - 1) with
  | none => exact ⟨rfl, rfl⟩
  | some j =>
    by_cases hkj : j = k
    · subst hkj
      by_cases hjlen : j < ns.length
      · rw [getD_set_self_of_lt _ _ _ (by simpa using hjlen)]
        exact ⟨rfl, rfl⟩
      · rw [List.getD_eq_default _ _ (by simpa using le_of_not_lt hjlen),
          List.getD_eq_default _ _ (le_of_not_lt hjlen)]
        exact ⟨rfl, rfl⟩
    · rw [getD_set_ne_of_ne _ _ _ _ hkj]
      by_cases hki : i = k
      · subst hki
        by_cases hilen : i < ns.length
        · rw [getD_set_self_of_lt _ _ _ hilen]
          exact ⟨rfl, rfl⟩
        · rw [List.getD_eq_default _ _ (by simpa using le_of_not_lt hilen),
            List.getD_eq_default _ _ (le_of_not_lt hilen)]
          exact ⟨rfl, rfl⟩
      · rw [getD_set_ne_of_ne _ _ _ _ hki]
        exact ⟨rfl, rfl⟩

lemma linkAt_children_superset (ns : List HolarchicMemoryNode) (i k : ℕ) (x : String)
    (hx : x ∈ (ns.getD k default).children) :
    x ∈ ((linkAt ns i).getD k default).children := by
  simp only [linkAt]
  cases hsc : scanDown ns (ns.getD i default).level (i - 1) with
  | none => exact hx
  | some j =>
    by_cases hkj : j = k
    · subst hkj
      by_cases hjlen : j < ns.length
      · rw [getD_set_self_of_lt _ _ _ (by simpa using hjlen)]
        exact List.mem_append.mpr (Or.inl hx)
      · rw [List.getD_eq_default _ _ (by simpa using le_of_not_lt hjlen)]
        rw [List.getD_eq_default _ _ (le_of_not_lt hjlen)] at hx
        exact hx
    · rw [getD_set_ne_of_ne _ _ _ _ hkj]
      by_cases hki : i = k
      · subst hki
        by_cases hilen : i < ns.length
        · rw [getD_set_self_of_lt _ _ _ hilen]
          exact hx
        · rw [List.getD_eq_default _ _ (by simpa using le_of_not_lt hilen)]
          rw [List.getD_eq_default _ _ (le_of_not_lt hilen)] at hx
          exact hx
      · rw [getD_set_ne_of_ne _ _ _ _ hki]
        exact hx

lemma linkAt_parent_ne (ns : List HolarchicMemoryNode) (i k : ℕ) (hki : ¬(i = k)) :
    ((linkAt ns i).getD k default).parent = (ns.getD k default).parent := by
  simp only [linkAt]
  cases hsc : scanDown ns (ns.getD i default).level (i - 1) with
  | none => rfl
  | some j =>
    by_cases hkj : j = k
    · subst hkj
      by_cases hjlen : j < ns.length
      · rw [getD_set_self_of_lt _ _ _ (by simpa using hjlen)]
      · rw [List.getD_eq_default _ _ (by simpa using le_of_not_lt hjlen),
          List.getD_eq_default _ _ (le_of_not_lt hjlen)]
    · rw [getD_set_ne_of_ne _ _ _ _ hkj, getD_set_ne_of_ne _ _ _ _ hki]

lemma linkAt_new_parent (ns : List HolarchicMemoryNode) (i : ℕ)
    (hi : i < ns.length) (h1 : 1 ≤ i) :
    ((linkAt ns i).getD i default).parent = (ns.getD i default).parent ∨
    ∃ j, j < i ∧
      ((linkAt ns i).getD i default).parent = some ((ns.getD j default).id) ∧
      (ns.getD j default).level < (ns.getD i default).level ∧
      (ns.getD i default).id ∈ ((linkAt ns i).getD j default).children := by
  simp only [linkAt]
  cases hsc : scanDown ns (ns.getD i default).level (i - 1) with
  | none => exact Or.inl rfl
  | some j =>
    rcases scanDown_spec ns (ns.getD i default).level (i - 1) j hsc with ⟨hj, hjlvl⟩
    have hji : j < i := lt_of_le_of_lt hj (by omega)
    have hjlen : j < ns.length := lt_trans hji hi
    refine Or.inr ⟨j, hji, ?_, hjlvl, ?_⟩
    · rw [getD_set_ne_of_ne _ _ _ _ (Nat.ne_of_lt hji),
        getD_set_self_of_lt _ _ _ hi]
    · rw [getD_set_self_of_lt _ _ _ (by simpa using hjlen)]
      exact List.mem_append.mpr (Or.inr (List.mem_singleton.mpr rfl))

lemma linkAt_forest (ns : List HolarchicMemoryNode) (i : ℕ)
    (hi : i < ns.length) (h1 : 1 ≤ i) (hInv : ForestInv ns) :
    ForestInv (linkAt ns i) := by
  intro k hk pid hp
  rw [linkAt_length] at hk
  by_cases hki : k = i
  · subst hki
    rcases linkAt_new_parent ns k hi h1 with hsame | ⟨j, hji, hpar, hlvl, hmem⟩
    · rw [hsame] at hp
      rcases hInv k hk pid hp with ⟨j0, hj0, hid, hlt, hch⟩
      refine ⟨j0, by rw [linkAt_length]; exact hj0, ?_, ?_, ?_⟩
      · rw [(linkAt_id_level ns k j0).1]; exact hid
      · rw [(linkAt_id_level ns k j0).2, (linkAt_id_level ns k k).2]; exact hlt
      · rw [(linkAt_id_level ns k k).1]
        exact linkAt_children_superset ns k j0 _ hch
    · rw [hpar] at hp
      have hpid : (ns.getD j default).id = pid := Option.some.inj hp
      refine ⟨j, by rw [linkAt_length]; exact lt_trans hji hi, ?_, ?_, ?_⟩
      · rw [(linkAt_id_level ns k j).1]; exact hpid
      · rw [(linkAt_id_level ns k j).2, (linkAt_id_level ns k k).2]; exact hlvl
      · rw [(linkAt_id_level ns k k).1]; exact hmem
  · rw [linkAt_parent_ne ns i k (fun h => hki h.symm)] at hp
    rcases hInv k hk pid hp with ⟨j0, hj0, hid, hlt, hch⟩
    refine ⟨j0, by rw [linkAt_length]; exact hj0, ?_, ?_, ?_⟩
    · rw [(linkAt_id_level ns i j0).1]; exact hid
    · rw [(linkAt_id_level ns i j0).2, (linkAt_id_level ns i k).2]; exact hlt
    · rw [(linkAt_id_level ns i k).1]
      exact linkAt_children_superset ns i j0 _ hch

lemma foldl_linkAt_length (l : List ℕ) :
    ∀ ns : List HolarchicMemoryNode, (l.foldl linkAt ns).length = ns.length := by
  induction l with
  | nil => intro ns; rfl
  | cons a t ih => intro ns; rw [List.foldl_cons, ih, linkAt_length]

lemma foldl_linkAt_id_level (l : List ℕ) :
    ∀ (ns : List HolarchicMemoryNode) (k : ℕ),
      ((l.foldl linkAt ns).getD k default).id = (ns.getD k default).id ∧
      ((l.foldl linkAt ns).getD k default).level = (ns.getD k default).level := by
  induction l with
  | nil => intro ns k; exact ⟨rfl, rfl⟩
  | cons a t ih =>
    intro ns k
    rw [List.foldl_cons]
    rcases ih (linkAt ns a) k with ⟨h1, h2⟩
    rcases linkAt_id_level ns a k with ⟨h3, h4⟩
    exact ⟨h1.trans h3, h2.trans h4⟩

lemma foldl_linkAt_forest (l : List ℕ) :
    ∀ ns : List HolarchicMemoryNode, (∀ i ∈ l, 1 ≤ i ∧ i < ns.length) →
      ForestInv ns → ForestInv (l.foldl linkAt ns) := by
  induction l with
  | nil => intro ns _ h; exact h
  | cons a t ih =>
    intro ns hb hInv
    rw [List.foldl_cons]
    apply ih
    · intro i hi
      rcases hb i (List.mem_cons_of_mem a hi) with ⟨x, y⟩
      exact ⟨x, by rw [linkAt_length]; exact y⟩
    · rcases hb a (List.mem_cons_self a t) with ⟨x, y⟩
      exact linkAt_forest ns a y x hInv

lemma forestInv_of_no_parent (ns : List HolarchicMemoryNode)
    (h : ∀ n ∈ ns, n.parent = none) : ForestInv ns := by
  intro k hk pid hp
  have hmem : ns.getD k default ∈ ns := by
    rw [List.getD_eq_getElem _ _ hk]
    exact List.getElem_mem _
  rw [h _ hmem] at hp
  cases hp

lemma forest_members (ns : List HolarchicMemoryNode) (h : ForestInv ns) :
    ∀ n ∈ ns, ∀ pid, n.parent = some pid →
      ∃ m ∈ ns, m.id = pid ∧ m.level < n.level ∧ n.id ∈ m.children := by
  intro n hn pid hp
  rcases List.mem_iff_getElem.mp hn with ⟨k, hk, hkn⟩
  have hgetD : ns.getD k default = n := by
    rw [List.getD_eq_getElem _ _ hk]
    exact hkn
  rcases h k hk pid (by rw [hgetD]; exact hp) with ⟨j, hj, hid, hlvl, hch⟩
  refine ⟨ns.getD j default, ?_, hid, by rw [hgetD] at hlvl; exact hlvl,
    by rw [hgetD] at hch; exact hch⟩
  rw [List.getD_eq_getElem _ _ hj]
  exact List.getElem_mem _

lemma map_level_foldl (l : List ℕ) (ns : List HolarchicMemoryNode) :
    (l.foldl linkAt ns).map (fun n => n.level) = ns.map (fun n => n.level) := by
  apply List.ext_getElem
  · simp [foldl_linkAt_length]
  · intro n h1 h2
    rw [List.getElem_map, List.getElem_map]
    have hlen : n < (l.foldl linkAt ns).length := by
      simpa using h1
    have hlen2 : n < ns.length := by
      rw [← foldl_linkAt_length l ns]
      exact hlen
    have := (foldl_linkAt_id_level l ns n).2
    rw [List.getD_eq_getElem _ _ hlen, List.getD_eq_getElem _ _ hlen2] at this
    exact this

/-- Tree scenario particle at level 0. -/
def uA : Particle := ⟨"ua", ⟨0, 0, 0⟩, ⟨0, 0, 0⟩, 1, 0, 0, 0, ""⟩

/-- Tree scenario particle at level 0. -/
def uB : Particle := ⟨"ub", ⟨2, 0, 0⟩, ⟨0, 0, 0⟩, 1, 0, 0, 0, ""⟩

/-- Tree scenario particle at level 1. -/
def uC : Particle := ⟨"uc", ⟨1, 1, 0⟩, ⟨0, 0, 0⟩, 1, 0, 1, 0, ""⟩

/-- Expected level-0 node of the tree scenario (after linking). -/
def treeN0 : HolarchicMemoryNode :=
  ⟨"mem_0", 0, ⟨1, 0, 0⟩, ["ua", "ub", "mem_1"], none, 0, 1⟩

/-- Expected level-1 node of the tree scenario (after linking). -/
def treeN1 : HolarchicMemoryNode :=
  ⟨"mem_1", 1, ⟨1, 1, 0⟩, ["uc"], some "mem_0", 0, 1⟩

lemma tree_scenario : buildHolarchicTree [uA, uB, uC] 5 = [treeN0, treeN1] := by
  have hlio : levelsInOrder [uA, uB, uC] = [0, 1] := by
    norm_num [levelsInOrder, uA, uB, uC]
  have hf0 : [uA, uB, uC].filter (fun p => p.holarchyLevel = (0 : ℤ)) = [uA, uB] := by
    norm_num [uA, uB, uC]
  have hf1 : [uA, uB, uC].filter (fun p => p.holarchyLevel = (1 : ℤ)) = [uC] := by
    norm_num [uA, uB, uC]
  have hraw0 : createMemoryNodeFromParticles "mem_0" [uA, uB] 0 none =
      ({ treeN0 with children := ["ua", "ub"] } : HolarchicMemoryNode) := by
    simp only [createMemoryNodeFromParticles, treeN0]
    refine HolarchicMemoryNode.ext rfl rfl ?_ (by norm_num [uA, uB]) rfl
      (by norm_num [energySum, uA, uB]) (by norm_num)
    refine Vec3.ext ?_ ?_ ?_ <;> norm_num [centroidOf, massSum, uA, uB]
  have hraw1 : createMemoryNodeFromParticles "mem_1" [uC] 1 none =
      ({ treeN1 with children := ["uc"], parent := none } : HolarchicMemoryNode) := by
    simp only [createMemoryNodeFromParticles, treeN1]
    refine HolarchicMemoryNode.ext rfl rfl ?_ (by norm_num [uC]) rfl
      (by norm_num [energySum, uC]) (by norm_num)
    refine Vec3.ext ?_ ?_ ?_ <;> norm_num [centroidOf, massSum, uC]
  have hnodes : buildNodesUnsorted [uA, uB, uC] =
      [{ treeN0 with children := ["ua", "ub"] },
       { treeN1 with children := ["uc"], parent := none }] := by
    rw [show buildNodesUnsorted [uA, uB, uC] =
        (levelsInOrder [uA, uB, uC]).enum.map (fun lk =>
          createMemoryNodeFromParticles ("mem_" ++ toString lk.1)
            ([uA, uB, uC].filter (fun p => p.holarchyLevel = lk.2)) lk.2 none)
      from rfl, hlio]
    simp only [List.enum, List.enumFrom, List.map_cons, List.map_nil]
    rw [show ("mem_" ++ toString 0 : String) = "mem_0" from rfl,
      show ("mem_" ++ toString 1 : String) = "mem_1" from rfl, hf0, hf1, hraw0, hraw1]
  unfold buildHolarchicTree
  rw [hnodes]
  have hsort : List.insertionSort
      (fun a b : HolarchicMemoryNode => a.level ≤ b.level)
      [{ treeN0 with children := ["ua", "ub"] },
       { treeN1 with children := ["uc"], parent := none }] =
      [{ treeN0 with children := ["ua", "ub"] },
       { treeN1 with children := ["uc"], parent := none }] := by
    simp [List.insertionSort, List.orderedInsert, treeN0, treeN1]
  rw [hsort]
  norm_num [linkAt, scanDown, List.getD, treeN0, treeN1]

/-- C7. The memory tree has exactly one node per non-empty holarchy level
(the node levels are exactly the distinct particle levels, without
repetition), and it is a forest: every non-null parent pointer names a node
of the result with strictly lower level whose children contain the child's
id. On the spec's {0,0,1} scenario it yields two nodes with the level-1 node
parented to the level-0 node, which lists it among its children. -/
theorem holarchic_tree_one_node_per_level_forest (ps : List Particle) (maxDepth : ℤ) :
    ((buildHolarchicTree ps maxDepth).map (fun n => n.level)).Nodup ∧
    (∀ l : ℤ, l ∈ (buildHolarchicTree ps maxDepth).map (fun n => n.level) ↔
      ∃ p ∈ ps, p.holarchyLevel = l) ∧
    (∀ n ∈ buildHolarchicTree ps maxDepth, ∀ pid, n.parent = some pid →
      ∃ m ∈ buildHolarchicTree ps maxDepth, m.id = pid ∧ m.level < n.level ∧
        n.id ∈ m.children) ∧
    buildHolarchicTree [uA, uB, uC] 5 = [treeN0, treeN1] ∧
    treeN1.parent = some treeN0.id ∧
    treeN1.id ∈ treeN0.children := by
  have hmapeq : (buildHolarchicTree ps maxDepth).map (fun n => n.level) =
      (List.insertionSort (fun a b : HolarchicMemoryNode => a.level ≤ b.level)
        (buildNodesUnsorted ps)).map (fun n => n.level) := by
    unfold buildHolarchicTree
    exact map_level_foldl _ _
  have hperm : List.Perm
      ((List.insertionSort (fun a b : HolarchicMemoryNode => a.level ≤ b.level)
        (buildNodesUnsorted ps)).map (fun n => n.level)) (levelsInOrder ps) := by
    rw [← buildNodesUnsorted_levels ps]
    exact (List.perm_insertionSort _ _).map _
  have hperm2 : List.Perm
      ((buildHolarchicTree ps maxDepth).map (fun n => n.level)) (levelsInOrder ps) := by
    rw [hmapeq]
    exact hperm
  have hunfold : buildHolarchicTree ps maxDepth =
      (List.range' 1 ((List.insertionSort
          (fun a b : HolarchicMemoryNode => a.level ≤ b.level)
          (buildNodesUnsorted ps)).length - 1)).foldl linkAt
        (List.insertionSort (fun a b : HolarchicMemoryNode => a.level ≤ b.level)
          (buildNodesUnsorted ps)) := rfl
  refine ⟨hperm2.nodup_iff.mpr (levelsInOrder_nodup ps), ?_, ?_, tree_scenario, rfl, ?_⟩
  · intro l
    rw [hperm2.mem_iff, mem_levelsInOrder]
  · have hfor : ForestInv (buildHolarchicTree ps maxDepth) := by
      rw [hunfold]
      apply foldl_linkAt_forest
      · intro i hi
        have h := List.mem_range'_1.mp hi
        exact ⟨h.1, by omega⟩
      · apply forestInv_of_no_parent
        intro n hn
        exact buildNodesUnsorted_parent ps n ((List.perm_insertionSort _ _).mem_iff.mp hn)
    exact forest_members _ hfor
  · simp [treeN0, treeN1]

end
